import Mathlib

/-
Verification of the analysis-pipeline services of this repository against
its specification.  The Python services are shallowly embedded as Lean
functions:

* `src/src/services/analysis_progress.py`  — job state machine
  (`is_pause_allowed`, `pause_analysis`, `resume_analysis`,
  `cancel_analysis`, `complete_analysis`, `fail_analysis`,
  `wait_if_paused`).
* `src/src/api/v1/analysis.py`             — the pause control action.
* `src/src/services/analysis_runner.py`    — the runner's exception handlers.
* `src/src/services/code_chunker.py`       — `_register_embedding_failure`,
  `_generate_embeddings` (failure accounting), `_split_large_chunks`.
* `src/src/services/agents/human_input_agent.py` — the writer interrupt.
* `src/src/services/agents/coordinator_agent.py` and
  `src/src/services/analysis_orchestrator.py`   — persona routing and the
  stage graph.
* `src/src/services/semantic_search.py`    — `search_similar_code`.

Python strings are modelled as `String`/`List Char` (Python `len` counts
characters, as does `List.length` on `.data`), datetimes as `Nat`
timestamps, and database records as Lean structures.  Each database
`update` becomes a pure record update; the polling loop of
`wait_if_paused` consumes an explicit list of observed snapshots (one per
poll of the dedicated session).
-/

set_option maxRecDepth 4000

/-! ## Job state machine (`analysis_progress.py`, `models/analysis.py`) -/

/-- `AnalysisStatus` enum of `src/src/models/analysis.py`. -/
inductive AnalysisStatus where
  | pending
  | preprocessing
  | analyzing
  | paused
  | completed
  | failed
  | cancelled
deriving DecidableEq

/-- `AnalysisStage` enum of `src/src/models/analysis.py`. -/
inductive AnalysisStage where
  | repo_scan
  | code_chunking
  | embedding_generation
  | agent_orchestration
  | documentation_generation
  | completed
deriving DecidableEq

/-- One entry of `user_context["instructions"]`: `{text, scope}` with an
optional `timestamp` key (the control API adds a timestamp, the resume
path of the human-input agent does not). -/
structure Instruction where
  text : String
  scope : String
  timestamp : Option String
deriving DecidableEq

/-- The `user_context` JSONB column: ordered instruction list plus the
`pending_context` flag (an absent key reads as `false`). -/
structure UserContext where
  instructions : List Instruction
  pending_context : Bool
deriving DecidableEq

/-- The `Analysis` row, restricted to the columns the verified services
read or write. -/
structure Analysis where
  status : AnalysisStatus
  current_stage : Option AnalysisStage
  paused : Bool
  paused_at : Option Nat
  completed_at : Option Nat
  error_message : Option String
  user_context : UserContext
  processed_files : Nat
  total_files : Nat
deriving DecidableEq

/-- `AnalysisProgressService.PAUSE_ALLOWED_STAGES`. -/
def PAUSE_ALLOWED_STAGES : List AnalysisStage :=
  [AnalysisStage.repo_scan, AnalysisStage.code_chunking,
   AnalysisStage.embedding_generation, AnalysisStage.agent_orchestration]

/-- `AnalysisProgressService.is_pause_allowed` (analysis_progress.py
lines 168-175): stage in the allowed set, else the
analyzing-with-unset-stage escape hatch. -/
def is_pause_allowed (a : Analysis) : Bool :=
  if (match a.current_stage with
      | some s => decide (s ∈ PAUSE_ALLOWED_STAGES)
      | none => false) then
    true
  else if a.status = AnalysisStatus.analyzing ∧ a.current_stage = none then
    true
  else
    false

/-- `AnalysisProgressService.pause_analysis`: status=PAUSED, paused=true,
paused_at=now. -/
def pause_analysis (a : Analysis) (now : Nat) : Analysis :=
  { a with status := AnalysisStatus.paused, paused := true, paused_at := some now }

/-- `AnalysisProgressService.cancel_analysis`: status=CANCELLED,
paused=false, error_message=reason, completed_at=now. -/
def cancel_analysis (a : Analysis) (reason : String) (now : Nat) : Analysis :=
  { a with status := AnalysisStatus.cancelled, paused := false,
           error_message := some reason, completed_at := some now }

/-- `AnalysisProgressService.resume_analysis` (analysis_progress.py lines
299-321): `next_status` defaults to ANALYZING and becomes PREPROCESSING
whenever `is_pause_allowed` holds on the record; clears `paused`. -/
def resume_analysis (a : Analysis) : Analysis :=
  let next_status :=
    if is_pause_allowed a then AnalysisStatus.preprocessing
    else AnalysisStatus.analyzing
  { a with status := next_status, paused := false }

/-- `AnalysisProgressService.complete_analysis` (lines 362-381): clears a
set `pending_context` flag, then unconditionally writes
status=COMPLETED, current_stage=COMPLETED, completed_at, and
processed_files=total_files=100. -/
def complete_analysis (a : Analysis) (now : Nat) : Analysis :=
  let a1 :=
    if a.user_context.pending_context then
      { a with user_context := { a.user_context with pending_context := false } }
    else a
  { a1 with status := AnalysisStatus.completed,
            current_stage := some AnalysisStage.completed,
            completed_at := some now,
            processed_files := 100,
            total_files := 100 }

/-- `AnalysisProgressService.fail_analysis`: status=FAILED with the given
(unmodified) error message. -/
def fail_analysis (a : Analysis) (error_message : String) (now : Nat) : Analysis :=
  { a with status := AnalysisStatus.failed,
           error_message := some error_message,
           completed_at := some now }

/-- One poll of `wait_if_paused`: the snapshot read through the dedicated
session (`None` if the row is gone) and `datetime.utcnow()` at the
timeout comparison. -/
structure Poll where
  analysis : Option Analysis
  now : Nat
deriving DecidableEq

/-- Result of the `wait_if_paused` polling gate: it either returns to the
caller, raises `PauseTimeoutError` after writing the cancellation (the
written record is carried), or is still polling when the supplied
observations run out. -/
inductive WaitOutcome where
  | returned
  | timedOut (cancelled : Analysis)
  | stillPolling
deriving DecidableEq

/-- `AnalysisProgressService.wait_if_paused` (analysis_progress.py lines
177-229) over an explicit sequence of polled snapshots: return when the
row is gone or no longer paused, return when the stage makes pause not
allowed, otherwise compare `now - paused_at` against the configured
timeout and on expiry cancel with reason "Pause timeout exceeded" and
raise `PauseTimeoutError`. -/
def wait_if_paused (timeout_seconds : Nat) : List Poll → WaitOutcome
  | [] => WaitOutcome.stillPolling
  | p :: rest =>
    match p.analysis with
    | none => WaitOutcome.returned
    | some a =>
      if ¬ a.paused then WaitOutcome.returned
      else if ¬ is_pause_allowed a then WaitOutcome.returned
      else
        match a.paused_at with
        | some t =>
          if 0 < timeout_seconds ∧ timeout_seconds < p.now - t then
            WaitOutcome.timedOut (cancel_analysis a "Pause timeout exceeded" p.now)
          else wait_if_paused timeout_seconds rest
        | none => wait_if_paused timeout_seconds rest

/-- Substring test on character lists (used to state that an error
message contains "timeout"). -/
def hasSub (pat : List Char) : List Char → Bool
  | [] => pat.isPrefixOf []
  | c :: cs => pat.isPrefixOf (c :: cs) || hasSub pat cs

/-! ## Pause control action (`api/v1/analysis.py` lines 404-411) -/

/-- Outcome of the `pause` control action: accepted, or rejected with the
HTTP 409 conflict (raised before any state is written). -/
inductive PauseControlResult where
  | accepted
  | rejectedConflict409
deriving DecidableEq

/-- The `action == "pause"` branch of `control_analysis`: reject with 409
when `is_pause_allowed` fails (leaving the record untouched), otherwise
apply `pause_analysis`. -/
def control_pause (a : Analysis) (now : Nat) : Analysis × PauseControlResult :=
  if ¬ is_pause_allowed a then (a, PauseControlResult.rejectedConflict409)
  else (pause_analysis a now, PauseControlResult.accepted)

/-! ## Runner exception handlers (`analysis_runner.py` lines 247-259) -/

/-- Python `s[:n]` on strings: take the first `n` characters. -/
def pySlice (s : String) (n : Nat) : String :=
  String.mk (s.data.take n)

/-- A log event written by `log_event` (level, message, stage). -/
structure LoggedEvent where
  level : String
  message : String
  stage : Option String
deriving DecidableEq

/-- The exception that reaches the `try` of `run_analysis_job`: either the
distinguished `PauseTimeoutError` or any other exception with its
`str(e)` text. -/
inductive RunError where
  | pauseTimeoutError
  | otherError (msg : String)
deriving DecidableEq

/-- The two `except` clauses at the bottom of `run_analysis_job`:
`PauseTimeoutError` returns with no further writes; any other exception
logs "Analysis failed: " + `str(e)[:200]` and calls
`fail_analysis(analysis_id, str(e))` with the full text.  The result is
the database record afterwards plus the events logged. -/
def run_job_handle_failure (db : Analysis) (e : RunError) (now : Nat) :
    Analysis × List LoggedEvent :=
  match e with
  | RunError.pauseTimeoutError => (db, [])
  | RunError.otherError msg =>
    (fail_analysis db msg now,
     [{ level := "error", message := "Analysis failed: " ++ pySlice msg 200,
        stage := some "failed" }])

/-! ## Embedding failure accounting (`code_chunker.py` lines 58-72, 502-638) -/

/-- `CodeChunker._register_embedding_failure`: increment the cumulative
`embedding_failures` counter; when it exceeds 2 raise
`RuntimeError("Embedding failed more than 2 batches; aborting analysis")`.
Returns the new counter and whether the RuntimeError was raised. -/
def register_embedding_failure (embedding_failures : Nat) : Nat × Bool :=
  let f := embedding_failures + 1
  (f, decide (2 < f))

/-- Outcome of one embedding batch inside `_generate_embeddings`: the
OpenAI call embedded `n` chunks, or it failed (timeout after retry, or
any other exception). -/
inductive BatchOutcome where
  | ok (n : Nat)
  | err
deriving DecidableEq

/-- The batch loop of `_generate_embeddings`: successful batches add to
`count`; a failed batch calls `_register_embedding_failure` and, if that
raised, the RuntimeError propagates out of the loop (third component
true). -/
def embed_batches (failures count : Nat) : List BatchOutcome → Nat × Nat × Bool
  | [] => (failures, count, false)
  | BatchOutcome.ok n :: rest => embed_batches failures (count + n) rest
  | BatchOutcome.err :: rest =>
    let r := register_embedding_failure failures
    if r.2 then (r.1, count, true)
    else embed_batches r.1 count rest

/-- `CodeChunker._generate_embeddings` seen from its caller: the whole
body sits in a `try` whose final `except Exception` handler logs and
`return 0`s, so a RuntimeError raised by `_register_embedding_failure`
inside the batch loop is swallowed there and the method returns normally.
Result: (new failure counter, returned count); the method never
propagates the abort. -/
def generate_embeddings (failures : Nat) (batches : List BatchOutcome) : Nat × Nat :=
  let r := embed_batches failures 0 batches
  if r.2.2 then (r.1, 0) else (r.1, r.2.1)

/-! ## Chunk splitting (`code_chunker.py` lines 74-135) -/

/-- `CodeChunker.MAX_CHUNK_CHARS`. -/
def MAX_CHUNK_CHARS : Nat := 3000

/-- The `CodeChunk` value object of `code_parser.py` (content as its
character sequence; Python `len` counts characters). -/
structure CodeChunk where
  name : String
  chunk_type : String
  content : List Char
  start_line : Nat
  end_line : Nat
  language : String
  docstring : Option String
  dependencies : List String
  parameters : List (String × String)
  return_type : Option String
  parent : Option String
deriving DecidableEq

/-- Python `str.splitlines` restricted to `\n` terminators: accumulator
worker. -/
def pySplitlinesAux : List Char → List Char → List (List Char)
  | [], acc => if acc.isEmpty then [] else [acc.reverse]
  | c :: cs, acc =>
    if c = '\n' then acc.reverse :: pySplitlinesAux cs []
    else pySplitlinesAux cs (c :: acc)

/-- Python `content.splitlines()` (for `\n`-separated content): no entry
for a trailing newline, `""` yields `[]`. -/
def pySplitlines (s : List Char) : List (List Char) :=
  pySplitlinesAux s []

/-- Build one part chunk exactly as `_split_large_chunks` does:
`name__part{k}`, `"\n".join(current_lines)` as content, line range
`[start_line + start_offset, start_line + end_idx]`, docstring kept only
on part 1, all other fields copied. -/
def mk_part (c : CodeChunk) (part_index : Nat) (current_lines : List (List Char))
    (start_offset end_idx : Nat) : CodeChunk :=
  { name := c.name ++ "__part" ++ toString part_index
    chunk_type := c.chunk_type
    content := List.intercalate ['\n'] current_lines
    start_line := c.start_line + start_offset
    end_line := c.start_line + end_idx
    language := c.language
    docstring := if part_index = 1 then c.docstring else none
    dependencies := c.dependencies
    parameters := c.parameters
    return_type := c.return_type
    parent := c.parent }

/-- The line loop of `_split_large_chunks` for one oversized chunk:
`idx` enumerates the lines, `current_lines`/`current_len`/`start_offset`
mirror the Python locals; a part is flushed when the running length
would exceed `MAX_CHUNK_CHARS` (each line counted as `len(line) + 1`),
and the remainder is flushed after the loop.  Both flushes end the part
at line index `idx - 1` relative to the chunk start, matching
`chunk.start_line + idx - 1` and `chunk.start_line + len(lines) - 1`. -/
def split_go (c : CodeChunk) (idx part_index : Nat) (current_lines : List (List Char))
    (current_len start_offset : Nat) : List (List Char) → List CodeChunk
  | [] =>
    if current_lines.isEmpty then []
    else [mk_part c part_index current_lines start_offset (idx - 1)]
  | line :: rest =>
    let line_len := line.length + 1
    if ¬ current_lines.isEmpty ∧ MAX_CHUNK_CHARS < current_len + line_len then
      mk_part c part_index current_lines start_offset (idx - 1) ::
        split_go c (idx + 1) (part_index + 1) [line] line_len idx rest
    else
      split_go c (idx + 1) part_index (current_lines ++ [line])
        (current_len + line_len) start_offset rest

/-- `_split_large_chunks` on one chunk: pass through when the content is
within `MAX_CHUNK_CHARS` or has no lines, otherwise run the split loop
starting at part 1. -/
def split_one (c : CodeChunk) : List CodeChunk :=
  if c.content.length ≤ MAX_CHUNK_CHARS then [c]
  else
    let lines := pySplitlines c.content
    if lines.isEmpty then [c]
    else split_go c 0 1 [] 0 0 lines

/-- `CodeChunker._split_large_chunks` over a chunk list. -/
def split_large_chunks (chunks : List CodeChunk) : List CodeChunk :=
  chunks.flatMap split_one

/-! ## Writer interrupt (`agents/human_input_agent.py` lines 16-72) -/

/-- The value a suspended `interrupt(prompt)` resumes with: a dict
(with the keys `HumanInputAgent.run` inspects), a plain value
stringified by Python, or `None`. -/
inductive ResumeValue where
  | dict (text instruction content scope : Option String)
  | str (s : String)
  | noneV
deriving DecidableEq

/-- Python `s.strip()`. -/
def pyStrip (s : String) : String :=
  String.mk ((s.data.dropWhile Char.isWhitespace).reverse.dropWhile
    Char.isWhitespace).reverse

/-- Python `a or b` on strings (empty string is falsy). -/
def pyOrStr (a b : String) : String :=
  if a = "" then b else a

/-- Python `opt.get(k) or default` for an optional string field. -/
def pyGetOr (v : Option String) (default : String) : String :=
  pyOrStr (v.getD "") default

/-- The `resume_text`/`resume_scope` extraction of `HumanInputAgent.run`
(lines 42-48): dict responses chain `text or instruction or content`,
non-dict non-None responses are stringified and stripped, scope defaults
to "global". -/
def parse_resume (r : ResumeValue) : String × String :=
  match r with
  | ResumeValue.dict text instruction content scope =>
    (pyOrStr (pyOrStr (text.getD "") (instruction.getD "")) (content.getD ""),
     pyGetOr scope "global")
  | ResumeValue.str s => (pyStrip s, "global")
  | ResumeValue.noneV => ("", "global")

/-- `HumanInputAgent.run`: result is (stored analysis afterwards, the
`analysis_options` update returned to the graph (`none` models the empty
`{}` update of the terminal-status early return), and whether
`interrupt(...)` was reached).  When `pending_context` is falsy the agent
returns without suspending and without writing; otherwise it suspends,
and on resume appends `{text, scope}` only when the resume text is
non-empty and differs from the stripped text of the last queued
instruction, then stores the instruction list with
`pending_context=False`. -/
def human_input_run (a : Analysis) (response : ResumeValue) :
    Analysis × Option UserContext × Bool :=
  if a.status = AnalysisStatus.completed ∨ a.status = AnalysisStatus.failed ∨
      a.status = AnalysisStatus.cancelled then
    (a, none, false)
  else
    let options := a.user_context
    let instructions := options.instructions
    if ¬ options.pending_context then (a, some options, false)
    else
      let latest_text := (instructions.getLast?.map Instruction.text).getD ""
      let r := parse_resume response
      let instructions2 :=
        if r.1 ≠ "" ∧ r.1 ≠ pyStrip latest_text then
          instructions ++ [{ text := r.1, scope := r.2, timestamp := none }]
        else instructions
      let updated : UserContext :=
        { instructions := instructions2, pending_context := false }
      ({ a with user_context := updated }, some updated, true)

/-! ## Persona routing and stage graph (`coordinator_agent.py`,
`analysis_orchestrator.py`) -/

/-- The nodes of the LangGraph stage graph built by
`AnalysisOrchestrator._build_graph`. -/
inductive GNode where
  | coordinator
  | structureNode
  | webSearch
  | sde_doc
  | pm_doc
  | join
deriving DecidableEq

/-- The `target_personas` dict (absent keys read as false via
`target_personas.get(..., False)`). -/
structure TargetPersonas where
  sde : Bool
  pm : Bool
deriving DecidableEq

/-- `CoordinatorAgent.run`: `run_sde`/`run_pm` from the persona flags. -/
def coordinator_run (tp : TargetPersonas) : Bool × Bool :=
  (tp.sde, tp.pm)

/-- `AnalysisOrchestrator._route_personas` (lines 112-118): collect the
selected writer branches, defaulting to `["pm_doc"]` when none is
selected (`routes or ["pm_doc"]`). -/
def route_personas (run_sde run_pm : Bool) : List GNode :=
  let routes :=
    (if run_sde then [GNode.sde_doc] else []) ++
    (if run_pm then [GNode.pm_doc] else [])
  if routes.isEmpty then [GNode.pm_doc] else routes

/-- Successor function of the compiled graph: the static edges of
`_build_graph` plus the conditional edges out of `web_search` given by
`_route_personas`. -/
def graph_successors (run_sde run_pm : Bool) : GNode → List GNode
  | GNode.coordinator => [GNode.structureNode]
  | GNode.structureNode => [GNode.webSearch]
  | GNode.webSearch => route_personas run_sde run_pm
  | GNode.sde_doc => [GNode.join]
  | GNode.pm_doc => [GNode.join]
  | GNode.join => []

/-- One Pregel superstep: every node activated by a completed node runs
next, deduplicated (LangGraph schedules `join` once even when both
writer branches trigger it in the same superstep). -/
def next_superstep (run_sde run_pm : Bool) (active : List GNode) : List GNode :=
  (active.flatMap (graph_successors run_sde run_pm)).dedup

/-- Fuelled superstep execution from an active frontier. -/
def run_supersteps (run_sde run_pm : Bool) : Nat → List GNode → List (List GNode)
  | 0, _ => []
  | _, [] => []
  | fuel + 1, active =>
    active :: run_supersteps run_sde run_pm fuel (next_superstep run_sde run_pm active)

/-- The superstep schedule of one orchestration run for the given persona
flags: coordinator entry point, then the static chain, then the routed
writer branches, then `join` (the graph has depth 5, fuel 10 suffices). -/
def orchestration_supersteps (tp : TargetPersonas) : List (List GNode) :=
  let r := coordinator_run tp
  run_supersteps r.1 r.2 10 [GNode.coordinator]

/-! ## Semantic search (`semantic_search.py` lines 23-90) -/

/-- Dot product of two embedding vectors (pgvector `<#>` returns its
negation; the service negates back, so similarity is exactly this). -/
def dot : List ℚ → List ℚ → ℚ
  | [], _ => 0
  | _, [] => 0
  | a :: as, b :: bs => a * b + dot as bs

/-- A stored `CodeChunk` row as the search reads it. -/
structure StoredChunk where
  id : Nat
  name : String
  chunk_type : String
  language : String
  file_path : String
  content : String
  docstring : Option String
  start_line : Nat
  end_line : Nat
  embedding : Option (List ℚ)
deriving DecidableEq

/-- Similarity of a stored chunk against the query embedding (only
applied to rows whose embedding is not NULL). -/
def chunk_sim (q : List ℚ) (c : StoredChunk) : ℚ :=
  match c.embedding with
  | some v => dot q v
  | none => 0

/-- Insert into a list sorted by descending similarity (used to model
the SQL `ORDER BY` on the inner-product distance). -/
def insertDesc (q : List ℚ) (x : StoredChunk) : List StoredChunk → List StoredChunk
  | [] => [x]
  | y :: ys =>
    if chunk_sim q y ≤ chunk_sim q x then x :: y :: ys
    else y :: insertDesc q x ys

/-- Sort by descending similarity (the `ORDER BY max_inner_product`
ascending on negated inner products). -/
def sortDesc (q : List ℚ) : List StoredChunk → List StoredChunk
  | [] => []
  | x :: xs => insertDesc q x (sortDesc q xs)

/-- Python `round` (banker's rounding, ties to even) on a rational. -/
def pyRoundInt (x : ℚ) : ℤ :=
  let f := Int.floor x
  let d := x - f
  if d < 1/2 then f
  else if 1/2 < d then f + 1
  else if f % 2 = 0 then f else f + 1

/-- Python `round(x, 4)`. -/
def round4 (x : ℚ) : ℚ :=
  (pyRoundInt (x * 10000) : ℚ) / 10000

/-- One entry of the result list built by `search_similar_code`
(restricted to the fields the claims mention). -/
structure SearchResult where
  id : Nat
  name : String
  file_path : String
  start_line : Nat
  end_line : Nat
  similarity_score : ℚ
  confidence : String
deriving DecidableEq

/-- The row-selection of `search_similar_code`: rows of the project with
non-NULL embedding, ordered by inner-product similarity (descending),
`LIMIT limit`, then the Python-side filter `similarity >=
similarity_threshold`. -/
def search_select (chunks : List StoredChunk) (q : List ℚ) (limit : Nat)
    (threshold : ℚ) : List StoredChunk :=
  ((sortDesc q (chunks.filter (fun c => c.embedding.isSome))).take limit).filter
    (fun c => decide (threshold ≤ chunk_sim q c))

/-- The result dict built for one selected row: `similarity_score =
round(similarity, 4)` and `confidence = "high" if similarity > 0.8 else
"medium"`. -/
def to_result (q : List ℚ) (c : StoredChunk) : SearchResult :=
  { id := c.id, name := c.name, file_path := c.file_path,
    start_line := c.start_line, end_line := c.end_line,
    similarity_score := round4 (chunk_sim q c),
    confidence := if 8/10 < chunk_sim q c then "high" else "medium" }

/-- `SemanticSearchService.search_similar_code` given the query embedding
(the OpenAI call is external; an embedding failure returns `[]` before
this point). -/
def search_similar_code (chunks : List StoredChunk) (q : List ℚ) (limit : Nat)
    (threshold : ℚ) : List SearchResult :=
  (search_select chunks q limit threshold).map (to_result q)

/-! ## Sample records used in witnesses and counterexamples -/

/-- A baseline analysis row (all counters zero, nothing set). -/
def baseAnalysis : Analysis :=
  { status := AnalysisStatus.pending, current_stage := none, paused := false,
    paused_at := none, completed_at := none, error_message := none,
    user_context := { instructions := [], pending_context := false },
    processed_files := 0, total_files := 0 }

/-- An analysis paused while `current_stage` was `agent_orchestration`
(it was analyzing before the pause). -/
def pausedAgentAnalysis : Analysis :=
  { baseAnalysis with
    status := AnalysisStatus.paused
    current_stage := some AnalysisStage.agent_orchestration
    paused := true
    paused_at := some 0 }

/-- An analysis paused while `current_stage` was `repo_scan`
(it was preprocessing before the pause). -/
def pausedRepoAnalysis : Analysis :=
  { baseAnalysis with
    status := AnalysisStatus.paused
    current_stage := some AnalysisStage.repo_scan
    paused := true
    paused_at := some 0 }

/-- An analysis paused while `status` was analyzing with
`current_stage` unset (the escape-hatch pause case). -/
def pausedNoStageAnalysis : Analysis :=
  { baseAnalysis with
    status := AnalysisStatus.paused
    current_stage := none
    paused := true
    paused_at := some 0 }

/-! ## C9 -/

/-- C9: a pause request is rejected with HTTP 409, leaving the analysis
record unchanged, exactly outside the pausable states;
`is_pause_allowed` holds iff `current_stage` is one of repo_scan,
code_chunking, embedding_generation, agent_orchestration, or the status
is analyzing with the stage unset. -/
theorem C9_pause_rejected_outside_pausable (a : Analysis) (now : Nat) :
    (is_pause_allowed a = true ↔
      ((∃ s, a.current_stage = some s ∧ s ∈ PAUSE_ALLOWED_STAGES) ∨
        (a.status = AnalysisStatus.analyzing ∧ a.current_stage = none))) ∧
    (is_pause_allowed a = false →
      control_pause a now = (a, PauseControlResult.rejectedConflict409)) := by
  constructor
  · cases h : a.current_stage with
    | none => simp [is_pause_allowed, h]
    | some s =>
      by_cases hs : s ∈ PAUSE_ALLOWED_STAGES
      · simp [is_pause_allowed, h, hs]
      · simp [is_pause_allowed, h, hs]
  · intro h
    simp [control_pause, h]

/-- A completed analysis whose stage reached `documentation_generation`
(not a pausable state). -/
def completedDocAnalysis : Analysis :=
  { baseAnalysis with
    status := AnalysisStatus.completed
    current_stage := some AnalysisStage.documentation_generation }

/-- C9 witness: for a completed analysis in the `documentation_generation`
stage, pause is not allowed and the control action rejects it with the
record unchanged. -/
theorem C9_pause_rejected_witness :
    is_pause_allowed completedDocAnalysis = false ∧
    control_pause completedDocAnalysis 3 =
      (completedDocAnalysis, PauseControlResult.rejectedConflict409) :=
  ⟨by decide,
   (C9_pause_rejected_outside_pausable completedDocAnalysis 3).2 (by decide)⟩

/-! ## C10 -/

/-- C10: `complete_analysis` unconditionally sets status=completed,
current_stage=completed, completed_at, overwrites the file counters to
100/100 regardless of the actual counts, and leaves `pending_context`
false (clearing it when it was set), keeping the instruction list. -/
theorem C10_complete_analysis_unconditional (a : Analysis) (now : Nat) :
    (complete_analysis a now).status = AnalysisStatus.completed ∧
    (complete_analysis a now).current_stage = some AnalysisStage.completed ∧
    (complete_analysis a now).completed_at = some now ∧
    (complete_analysis a now).processed_files = 100 ∧
    (complete_analysis a now).total_files = 100 ∧
    (complete_analysis a now).user_context.pending_context = false ∧
    (complete_analysis a now).user_context.instructions =
      a.user_context.instructions := by
  by_cases h : a.user_context.pending_context <;>
    simp [complete_analysis, h]

/-! ## C7 -/

/-- C7: persona routing is pure and total — `route_personas` never
returns an empty branch list; `{}` runs only the default business (pm)
writer, `{sde:true}` only the technical branch, `{sde:true, pm:true}`
runs both in one superstep with `join` firing exactly once, in the
following superstep, after both branches completed. -/
theorem C7_persona_routing :
    (∀ run_sde run_pm : Bool, route_personas run_sde run_pm ≠ []) ∧
    orchestration_supersteps { sde := false, pm := false } =
      [[GNode.coordinator], [GNode.structureNode], [GNode.webSearch],
       [GNode.pm_doc], [GNode.join]] ∧
    orchestration_supersteps { sde := true, pm := false } =
      [[GNode.coordinator], [GNode.structureNode], [GNode.webSearch],
       [GNode.sde_doc], [GNode.join]] ∧
    orchestration_supersteps { sde := true, pm := true } =
      [[GNode.coordinator], [GNode.structureNode], [GNode.webSearch],
       [GNode.sde_doc, GNode.pm_doc], [GNode.join]] ∧
    ((orchestration_supersteps { sde := true, pm := true }).flatMap id).count
      GNode.join = 1 := by
  decide

/-! ## C2 -/

/-- C2 counterexample: an analysis paused during `agent_orchestration`
(it was analyzing) is resumed to status `preprocessing`, not
`analyzing`, because `resume_analysis` keys the restored status on
`is_pause_allowed`, whose stage set contains `agent_orchestration`. -/
theorem C2_resume_agent_counterexample :
    pausedAgentAnalysis.current_stage = some AnalysisStage.agent_orchestration ∧
    (resume_analysis pausedAgentAnalysis).status = AnalysisStatus.preprocessing ∧
    (resume_analysis pausedAgentAnalysis).status ≠ AnalysisStatus.analyzing := by
  decide

/-- C2 (amended): `resume_analysis` clears `paused` and restores status
`preprocessing` whenever the paused record passes `is_pause_allowed`
(any stage in the pausable set, including `agent_orchestration`), and
`analyzing` otherwise — so a pre-pause preprocessing analysis returns to
`preprocessing`, one paused with the stage unset returns to `analyzing`,
and one paused during `agent_orchestration` resumes as `preprocessing`. -/
theorem C2_resume_restores_status (a : Analysis)
    (hp : a.status = AnalysisStatus.paused) :
    ((∃ s, a.current_stage = some s ∧ s ∈ PAUSE_ALLOWED_STAGES) →
      (resume_analysis a).status = AnalysisStatus.preprocessing) ∧
    (a.current_stage = none →
      (resume_analysis a).status = AnalysisStatus.analyzing) ∧
    (resume_analysis a).paused = false := by
  refine ⟨fun ⟨s, hs, hmem⟩ => ?_, fun hn => ?_, by simp [resume_analysis]⟩
  · simp [resume_analysis, is_pause_allowed, hs, hmem]
  · simp [resume_analysis, is_pause_allowed, hn, hp]

/-- C2 witness: resuming the repo_scan-paused analysis restores
`preprocessing`, and resuming the stage-unset paused analysis restores
`analyzing`. -/
theorem C2_resume_restores_status_witness :
    (resume_analysis pausedRepoAnalysis).status = AnalysisStatus.preprocessing ∧
    (resume_analysis pausedNoStageAnalysis).status = AnalysisStatus.analyzing :=
  ⟨(C2_resume_restores_status pausedRepoAnalysis rfl).1
      ⟨AnalysisStage.repo_scan, rfl, by decide⟩,
   (C2_resume_restores_status pausedNoStageAnalysis rfl).2.1 rfl⟩

/-! ## C5 -/

/-- C5 counterexample: an analysis paused in the analyzing-with-stage-unset
state stays paused far beyond the timeout, yet `wait_if_paused` simply
returns (its `is_pause_allowed` guard fails on the PAUSED status with no
stage), so the analysis is neither cancelled nor does the gate raise. -/
theorem C5_wait_unset_stage_counterexample :
    pausedNoStageAnalysis.paused = true ∧
    pausedNoStageAnalysis.paused_at = some 0 ∧
    600 < 1000000 - 0 ∧
    wait_if_paused 600 [{ analysis := some pausedNoStageAnalysis, now := 1000000 }] =
      WaitOutcome.returned := by
  decide

/-- C5 (amended): for every analysis that stays paused in a
pause-allowed stage beyond the configured timeout, `wait_if_paused`
cancels it — the record ends with status cancelled (not failed) and an
error message containing "timeout" — and raises `PauseTimeoutError`
instead of returning.  (An analysis paused with the stage unset passes
the gate without being cancelled, see the counterexample.) -/
theorem C5_wait_timeout_cancels (timeout_seconds : Nat) (polls : List Poll)
    (hpaused : ∀ p ∈ polls, ∃ a, p.analysis = some a ∧ a.paused = true ∧
      is_pause_allowed a = true)
    (hover : ∃ p ∈ polls, ∃ a t, p.analysis = some a ∧ a.paused_at = some t ∧
      timeout_seconds < p.now - t)
    (hpos : 0 < timeout_seconds) :
    ∃ cancelled,
      wait_if_paused timeout_seconds polls = WaitOutcome.timedOut cancelled ∧
      cancelled.status = AnalysisStatus.cancelled ∧
      cancelled.status ≠ AnalysisStatus.failed ∧
      cancelled.error_message = some "Pause timeout exceeded" ∧
      hasSub "timeout".data "Pause timeout exceeded".data = true := by
  induction polls with
  | nil => simp at hover
  | cons p rest ih =>
    obtain ⟨a, hpa, hpz, hal⟩ := hpaused p (List.mem_cons_self p rest)
    have hrest : ∀ q ∈ rest, ∃ a, q.analysis = some a ∧ a.paused = true ∧
        is_pause_allowed a = true :=
      fun q hq => hpaused q (List.mem_cons_of_mem p hq)
    cases hat : a.paused_at with
    | some t =>
      by_cases htrig : timeout_seconds < p.now - t
      · refine ⟨cancel_analysis a "Pause timeout exceeded" p.now, ?_, by
          simp [cancel_analysis], by simp [cancel_analysis], by
          simp [cancel_analysis], by decide⟩
        simp [wait_if_paused, hpa, hpz, hal, hat, hpos, htrig]
      · have hover2 : ∃ q ∈ rest, ∃ a t, q.analysis = some a ∧
            a.paused_at = some t ∧ timeout_seconds < q.now - t := by
          obtain ⟨q, hq, a0, t0, hqa, hq0, hqt⟩ := hover
          rcases List.mem_cons.mp hq with hq1 | hq2
          · subst hq1
            rw [hpa] at hqa
            injection hqa with hqa
            subst hqa
            rw [hat] at hq0
            injection hq0 with hq0
            subst hq0
            exact absurd hqt htrig
          · exact ⟨q, hq2, a0, t0, hqa, hq0, hqt⟩
        obtain ⟨cancelled, hc⟩ := ih hrest hover2
        refine ⟨cancelled, ?_, hc.2.1, hc.2.2.1, hc.2.2.2.1, hc.2.2.2.2⟩
        rw [← hc.1]
        simp [wait_if_paused, hpa, hpz, hal, hat, htrig]
    | none =>
      have hover2 : ∃ q ∈ rest, ∃ a t, q.analysis = some a ∧
          a.paused_at = some t ∧ timeout_seconds < q.now - t := by
        obtain ⟨q, hq, a0, t0, hqa, hq0, hqt⟩ := hover
        rcases List.mem_cons.mp hq with hq1 | hq2
        · subst hq1
          rw [hpa] at hqa
          injection hqa with hqa
          subst hqa
          rw [hat] at hq0
          exact absurd hq0 (by simp)
        · exact ⟨q, hq2, a0, t0, hqa, hq0, hqt⟩
      obtain ⟨cancelled, hc⟩ := ih hrest hover2
      refine ⟨cancelled, ?_, hc.2.1, hc.2.2.1, hc.2.2.2.1, hc.2.2.2.2⟩
      rw [← hc.1]
      simp [wait_if_paused, hpa, hpz, hal, hat]

/-- C5 witness: one poll observes the repo_scan-paused analysis 10000
seconds after it was paused with a 600 second timeout; the gate cancels
it with the "Pause timeout exceeded" reason and raises. -/
theorem C5_wait_timeout_cancels_witness :
    ∃ cancelled,
      wait_if_paused 600 [{ analysis := some pausedRepoAnalysis, now := 10000 }] =
        WaitOutcome.timedOut cancelled ∧
      cancelled.status = AnalysisStatus.cancelled ∧
      cancelled.status ≠ AnalysisStatus.failed ∧
      cancelled.error_message = some "Pause timeout exceeded" ∧
      hasSub "timeout".data "Pause timeout exceeded".data = true :=
  C5_wait_timeout_cancels 600
    [{ analysis := some pausedRepoAnalysis, now := 10000 }]
    (by intro p hp; simp at hp; subst hp; exact ⟨pausedRepoAnalysis, rfl, by decide, by decide⟩)
    ⟨{ analysis := some pausedRepoAnalysis, now := 10000 }, by simp,
     pausedRepoAnalysis, 0, rfl, by decide, by decide⟩
    (by decide)

/-! ## C8 -/

/-- A 250-character exception text. -/
def longErrorText : String := String.mk (List.replicate 250 'e')

/-- C8 counterexample: for an exception whose text has 250 characters,
the terminal failed record stores the full untruncated text as
`error_message` (only the log line is truncated to 200 characters), so
the run is not failed "with a truncated error message" as claimed. -/
theorem C8_untruncated_error_counterexample :
    200 < longErrorText.length ∧
    (run_job_handle_failure baseAnalysis (RunError.otherError longErrorText) 7).1.error_message =
      some longErrorText ∧
    (pySlice longErrorText 200).length = 200 := by
  refine ⟨?_, rfl, ?_⟩
  · simp [longErrorText, String.length]
  · simp [pySlice, longErrorText, String.length]

/-- C8 (amended): `run_analysis_job` never propagates an exception: a
`PauseTimeoutError` ends the runner with no further writes and no log
(the record — already cancelled by the pause gate — is returned
unchanged, so the run is not marked failed), while any other exception
is logged with the message "Analysis failed: " plus the text truncated
to 200 characters and converts the run to terminal status failed,
storing the full untruncated exception text as `error_message`. -/
theorem C8_runner_exception_handling (db : Analysis) (msg : String) (now : Nat) :
    run_job_handle_failure db RunError.pauseTimeoutError now = (db, []) ∧
    (run_job_handle_failure db (RunError.otherError msg) now).1 =
      fail_analysis db msg now ∧
    (run_job_handle_failure db (RunError.otherError msg) now).1.status =
      AnalysisStatus.failed ∧
    (run_job_handle_failure db (RunError.otherError msg) now).1.error_message =
      some msg ∧
    (run_job_handle_failure db (RunError.otherError msg) now).2 =
      [{ level := "error", message := "Analysis failed: " ++ pySlice msg 200,
         stage := some "failed" }] := by
  exact ⟨rfl, rfl, by simp [run_job_handle_failure, fail_analysis], rfl, rfl⟩

/-! ## C1 -/

/-- C1: `_register_embedding_failure` counts cumulative batch failures
and raises `RuntimeError` exactly on the third one (counter > 2), so
after 2 or fewer failures the loop continues — but inside
`_generate_embeddings` the raised abort is caught by the method's own
blanket `except Exception` handler, which logs and returns 0: with three
failed batches the method returns `(counter 3, count 0)` normally and
preprocessing continues instead of the whole run aborting. -/
theorem C1_third_failure_abort_swallowed :
    ((register_embedding_failure 0).2 = false ∧
     (register_embedding_failure 1).2 = false ∧
     (register_embedding_failure 2).2 = true) ∧
    generate_embeddings 0 [BatchOutcome.err, BatchOutcome.err] = (2, 0) ∧
    generate_embeddings 0 [BatchOutcome.err, BatchOutcome.err, BatchOutcome.err] =
      (3, 0) ∧
    generate_embeddings 0
      [BatchOutcome.err, BatchOutcome.err, BatchOutcome.err, BatchOutcome.ok 5] =
      (3, 0) ∧
    generate_embeddings 0 [BatchOutcome.err, BatchOutcome.err, BatchOutcome.ok 5] =
      (2, 5) := by
  decide

/-! ## C4 -/

/-- An analysis suspended-able at the writer interrupt: analyzing in
`agent_orchestration` with one queued pending instruction whose scope is
"file" (queued through the control API, hence with a timestamp). -/
def pendingFileScopeAnalysis : Analysis :=
  { baseAnalysis with
    status := AnalysisStatus.analyzing
    current_stage := some AnalysisStage.agent_orchestration
    user_context :=
      { instructions := [{ text := "X", scope := "file", timestamp := some "t0" }]
        pending_context := true } }

/-- C4 counterexample: the writer interrupt of this analysis is resumed
with the external signal `{text:"X", scope:"global"}`; because the
resume text equals the stripped text of the queued instruction,
`HumanInputAgent.run` does not append it, and the stored list's last
entry remains the queued `{text:"X", scope:"file", timestamp:"t0"}` —
not `{text:"X", scope:"global"}` as claimed (`pending_context` is still
cleared). -/
theorem C4_resume_last_entry_counterexample :
    (human_input_run pendingFileScopeAnalysis
      (ResumeValue.dict (some "X") none none (some "global"))).2.2 = true ∧
    ((human_input_run pendingFileScopeAnalysis
      (ResumeValue.dict (some "X") none none (some "global"))).1.user_context.instructions.getLast?.map
        Instruction.scope) = some "file" ∧
    "file" ≠ "global" ∧
    (human_input_run pendingFileScopeAnalysis
      (ResumeValue.dict (some "X") none none (some "global"))).1.user_context.pending_context =
      false := by
  decide

/-- C4 (amended): for a run suspended at the writer interrupt and resumed
with `{text:x, scope:"global"}` where `x` is non-empty and differs from
the stripped text of the queued pending instruction, the stored
instruction list's last entry is exactly `{text:x, scope:"global"}` (no
timestamp key) and `pending_context` is false afterwards; when the
resume text matches the queued instruction, nothing is appended and the
last entry remains the queued one.  The flag is cleared exactly once:
the second writer branch reads `pending_context == false`, does not
reach `interrupt(...)`, and leaves the stored record unchanged. -/
theorem C4_resume_merges_context (a : Analysis) (x : String)
    (h1 : a.status ≠ AnalysisStatus.completed)
    (h2 : a.status ≠ AnalysisStatus.failed)
    (h3 : a.status ≠ AnalysisStatus.cancelled)
    (hpend : a.user_context.pending_context = true)
    (hx : x ≠ "")
    (hdiff : x ≠ pyStrip
      ((a.user_context.instructions.getLast?.map Instruction.text).getD "")) :
    (human_input_run a (ResumeValue.dict (some x) none none (some "global"))).2.2 =
      true ∧
    (human_input_run a
      (ResumeValue.dict (some x) none none (some "global"))).1.user_context.pending_context =
      false ∧
    (human_input_run a
      (ResumeValue.dict (some x) none none (some "global"))).1.user_context.instructions.getLast? =
      some { text := x, scope := "global", timestamp := none } ∧
    (∀ response2 : ResumeValue,
      human_input_run
        (human_input_run a (ResumeValue.dict (some x) none none (some "global"))).1
        response2 =
      ((human_input_run a (ResumeValue.dict (some x) none none (some "global"))).1,
       some (human_input_run a
         (ResumeValue.dict (some x) none none (some "global"))).1.user_context,
       false)) := by
  have hterm : ¬ (a.status = AnalysisStatus.completed ∨
      a.status = AnalysisStatus.failed ∨ a.status = AnalysisStatus.cancelled) := by
    simp [h1, h2, h3]
  have hparse : parse_resume (ResumeValue.dict (some x) none none (some "global")) =
      (x, "global") := by
    simp [parse_resume, pyOrStr, pyGetOr, hx]
  refine ⟨?_, ?_, ?_, ?_⟩
  · simp [human_input_run, hterm, hpend]
  · simp [human_input_run, hterm, hpend]
  · simp [human_input_run, hterm, hpend, hparse, hx, hdiff]
  · intro response2
    simp [human_input_run, hterm, hpend]

/-- C4 witness: the interrupt of an analysis whose queued instruction is
"add auth docs" is resumed with `{text:"X", scope:"global"}`; `"X"`
differs from the queued text, so the last stored entry is exactly
`{text:"X", scope:"global"}`, `pending_context` ends false, and the
second writer branch is a no-op on the stored record. -/
theorem C4_resume_merges_context_witness :
    (human_input_run
      { baseAnalysis with
        status := AnalysisStatus.analyzing
        current_stage := some AnalysisStage.agent_orchestration
        user_context :=
          { instructions :=
              [{ text := "add auth docs", scope := "global", timestamp := some "t0" }]
            pending_context := true } }
      (ResumeValue.dict (some "X") none none (some "global"))).1.user_context.instructions.getLast? =
      some { text := "X", scope := "global", timestamp := none } ∧
    (human_input_run
      { baseAnalysis with
        status := AnalysisStatus.analyzing
        current_stage := some AnalysisStage.agent_orchestration
        user_context :=
          { instructions :=
              [{ text := "add auth docs", scope := "global", timestamp := some "t0" }]
            pending_context := true } }
      (ResumeValue.dict (some "X") none none (some "global"))).1.user_context.pending_context =
      false :=
  ⟨(C4_resume_merges_context _ "X" (by decide) (by decide) (by decide) (by decide)
      (by decide) (by decide)).2.2.1,
   (C4_resume_merges_context _ "X" (by decide) (by decide) (by decide) (by decide)
      (by decide) (by decide)).2.1⟩

/-! ## C3 helper lemmas -/

/-- Expected part names: `name__part{k}`, `name__part{k+1}`, ... . -/
def part_names (base : String) : Nat → Nat → List String
  | _, 0 => []
  | part_index, n + 1 =>
    (base ++ "__part" ++ toString part_index) :: part_names base (part_index + 1) n

/-- Expected part docstrings: the original docstring at part 1, `None`
everywhere else. -/
def part_docstrings (d : Option String) : Nat → Nat → List (Option String)
  | _, 0 => []
  | part_index, n + 1 =>
    (if part_index = 1 then d else none) :: part_docstrings d (part_index + 1) n

theorem part_docstrings_of_two_le (d : Option String) :
    ∀ (n part_index : Nat), 2 ≤ part_index →
      part_docstrings d part_index n = List.replicate n none := by
  intro n
  induction n with
  | zero => intro part_index _; rfl
  | succ m ih =>
    intro part_index hpi
    have : ¬ part_index = 1 := by omega
    simp only [part_docstrings, if_neg this, List.replicate_succ]
    rw [ih (part_index + 1) (by omega)]

theorem part_docstrings_one (d : Option String) (n : Nat) :
    part_docstrings d 1 (n + 1) = d :: List.replicate n none := by
  simp only [part_docstrings]
  rw [part_docstrings_of_two_le d n 2 (by omega)]
  simp

theorem pySplitlinesAux_ne_nil :
    ∀ (s acc : List Char), s ≠ [] ∨ acc ≠ [] → pySplitlinesAux s acc ≠ [] := by
  intro s
  induction s with
  | nil =>
    intro acc hne
    have hacc : acc ≠ [] := by
      rcases hne with h | h
      · exact absurd rfl h
      · exact h
    simp [pySplitlinesAux, hacc]
  | cons c cs ih =>
    intro acc _
    by_cases hc : c = '\n'
    · simp [pySplitlinesAux, hc]
    · simpa [pySplitlinesAux, hc] using ih (c :: acc) (Or.inr (by simp))

theorem pySplitlines_ne_nil (s : List Char) (hs : s ≠ []) : pySplitlines s ≠ [] :=
  pySplitlinesAux_ne_nil s [] (Or.inl hs)

theorem pySplitlinesAux_append_no_nl (r : List Char) (hr : ∀ c ∈ r, ¬ c = '\n') :
    ∀ (s acc : List Char),
      pySplitlinesAux (r ++ s) acc = pySplitlinesAux s (r.reverse ++ acc) := by
  induction r with
  | nil => intro s acc; simp
  | cons c cs ih =>
    intro s acc
    have hc : ¬ c = '\n' := hr c (List.mem_cons_self c cs)
    have hcs : ∀ x ∈ cs, ¬ x = '\n' := fun x hx => hr x (List.mem_cons_of_mem c hx)
    simp only [List.cons_append, pySplitlinesAux, if_neg hc, List.append_eq]
    rw [ih hcs s (c :: acc)]
    congr 1
    simp

theorem pySplitlinesAux_nl (s acc : List Char) :
    pySplitlinesAux ('\n' :: s) acc = acc.reverse :: pySplitlinesAux s [] := by
  simp [pySplitlinesAux]

theorem pySplitlinesAux_single (r : List Char) (hr : ∀ c ∈ r, ¬ c = '\n')
    (hne : r ≠ []) : pySplitlinesAux r [] = [r] := by
  have h := pySplitlinesAux_append_no_nl r hr [] []
  rw [List.append_nil] at h
  rw [h]
  simp [pySplitlinesAux, hne]

/-- Loop invariant theorem for the split loop: starting from any state
whose index equals `start_offset` plus the accumulated line count, the
produced parts are nonempty, start at `start_line + start_offset`, end
at the line index of the last remaining line, abut pairwise, and carry
consecutive `__part{k}` names with the docstring only on part 1. -/
theorem split_go_spec (c : CodeChunk) :
    ∀ (rest : List (List Char)) (idx part_index : Nat) (cur : List (List Char))
      (current_len start_offset : Nat),
      idx = start_offset + cur.length →
      cur ≠ [] ∨ rest ≠ [] →
      (split_go c idx part_index cur current_len start_offset rest ≠ [] ∧
        (split_go c idx part_index cur current_len start_offset rest).head?.map
          CodeChunk.start_line = some (c.start_line + start_offset) ∧
        (split_go c idx part_index cur current_len start_offset rest).getLast?.map
          CodeChunk.end_line = some (c.start_line + idx + rest.length - 1) ∧
        List.Chain' (fun p1 p2 => p2.start_line = p1.end_line + 1)
          (split_go c idx part_index cur current_len start_offset rest) ∧
        (split_go c idx part_index cur current_len start_offset rest).map
          CodeChunk.name =
          part_names c.name part_index
            (split_go c idx part_index cur current_len start_offset rest).length ∧
        (split_go c idx part_index cur current_len start_offset rest).map
          CodeChunk.docstring =
          part_docstrings c.docstring part_index
            (split_go c idx part_index cur current_len start_offset rest).length) := by
  intro rest
  induction rest with
  | nil =>
    intro idx part_index cur current_len start_offset hidx hne
    have hcur : cur ≠ [] := by
      rcases hne with h | h
      · exact h
      · exact absurd rfl h
    have h1 : 1 ≤ idx := by
      have := List.length_pos.mpr hcur
      omega
    have hci : cur.isEmpty = false := by simp [hcur]
    simp only [split_go, hci, Bool.false_eq_true, if_false]
    refine ⟨by simp, by simp [mk_part], ?_, by simp, ?_, ?_⟩
    · simp only [List.getLast?_singleton, Option.map_some', Option.map_some, mk_part]
      rw [Option.some_inj]
      simp only [List.length_nil]
      omega
    · simp [mk_part, part_names]
    · simp [mk_part, part_docstrings]
  | cons line rs ih =>
    intro idx part_index cur current_len start_offset hidx hne
    by_cases hsplit : ¬ cur.isEmpty ∧
        MAX_CHUNK_CHARS < current_len + (line.length + 1)
    · have hcur : cur ≠ [] := by
        rcases hsplit with ⟨h, _⟩
        simpa using h
      have h1 : 1 ≤ idx := by
        have := List.length_pos.mpr hcur
        omega
      obtain ⟨Tne, Thead, Tlast, Tchain, Tnames, Tdocs⟩ :=
        ih (idx + 1) (part_index + 1) [line] (line.length + 1) idx (by simp)
          (Or.inl (by simp))
      obtain ⟨t, ts, hT⟩ := List.exists_cons_of_ne_nil Tne
      simp only [split_go, if_pos hsplit]
      refine ⟨by simp, by simp [mk_part], ?_, ?_, ?_, ?_⟩
      · rw [hT, List.getLast?_cons_cons, ← hT, Tlast]
        rw [Option.some_inj]
        simp only [List.length_cons]
        omega
      · rw [hT]
        rw [hT] at Tchain Thead
        rw [List.chain'_cons]
        refine ⟨?_, Tchain⟩
        have ht : t.start_line = c.start_line + idx := by
          simpa using Thead
        simp only [mk_part, ht]
        omega
      · simp only [List.map_cons, List.length_cons]
        rw [Tnames]
        simp only [part_names, mk_part]
      · simp only [List.map_cons, List.length_cons]
        rw [Tdocs]
        simp only [part_docstrings, mk_part]
    · obtain ⟨Tne, Thead, Tlast, Tchain, Tnames, Tdocs⟩ :=
        ih (idx + 1) part_index (cur ++ [line]) (current_len + (line.length + 1))
          start_offset (by simp; omega) (Or.inl (by simp))
      simp only [split_go, if_neg hsplit]
      refine ⟨Tne, Thead, ?_, Tchain, Tnames, Tdocs⟩
      rw [Tlast]
      rw [Option.some_inj]
      simp only [List.length_cons]
      omega

/-- Unit-level consequence of the loop invariant: an oversized chunk
whose declared line range matches its content's line count is split into
nonempty, contiguous, consecutively named parts that partition its line
range, with the docstring only on part 1. -/
theorem split_one_spec (c : CodeChunk)
    (hbig : MAX_CHUNK_CHARS < c.content.length)
    (hline : c.end_line + 1 = c.start_line + (pySplitlines c.content).length) :
    split_one c ≠ [] ∧
    (split_one c).head?.map CodeChunk.start_line = some c.start_line ∧
    (split_one c).getLast?.map CodeChunk.end_line = some c.end_line ∧
    List.Chain' (fun p1 p2 => p2.start_line = p1.end_line + 1) (split_one c) ∧
    (split_one c).map CodeChunk.name = part_names c.name 1 (split_one c).length ∧
    (split_one c).map CodeChunk.docstring =
      c.docstring :: List.replicate ((split_one c).length - 1) none := by
  have hne : c.content ≠ [] := by
    intro h
    rw [h] at hbig
    simp [MAX_CHUNK_CHARS] at hbig
  have hlines : pySplitlines c.content ≠ [] := pySplitlines_ne_nil _ hne
  have hnot : ¬ c.content.length ≤ MAX_CHUNK_CHARS := by omega
  have hli : (pySplitlines c.content).isEmpty = false := by simp [hlines]
  have hrw : split_one c = split_go c 0 1 [] 0 0 (pySplitlines c.content) := by
    rw [split_one, if_neg hnot]
    simp [hli]
  obtain ⟨Tne, Thead, Tlast, Tchain, Tnames, Tdocs⟩ :=
    split_go_spec c (pySplitlines c.content) 0 1 [] 0 0 (by simp) (Or.inr hlines)
  rw [hrw]
  refine ⟨Tne, by simpa using Thead, ?_, Tchain, Tnames, ?_⟩
  · rw [Tlast, Option.some_inj]
    omega
  · rw [Tdocs]
    cases hsp : split_go c 0 1 [] 0 0 (pySplitlines c.content) with
    | nil => exact absurd hsp Tne
    | cons p ps =>
      simp only [List.length_cons, Nat.add_sub_cancel]
      rw [part_docstrings_one]

/-! ## C3 concrete chunks -/

/-- A line of `n` letters. -/
def aLine (n : Nat) : List Char := List.replicate n 'a'

theorem aLine_no_nl (n : Nat) : ∀ ch ∈ aLine n, ¬ ch = '\n' := by
  intro ch hch
  rw [aLine, List.mem_replicate] at hch
  rw [hch.2]
  decide

theorem aLine_ne_nil (n : Nat) (h : 0 < n) : aLine n ≠ [] := by
  rw [aLine]
  intro hc
  have hl := congrArg List.length hc
  rw [List.length_replicate, List.length_nil] at hl
  omega

theorem aLine_length (n : Nat) : (aLine n).length = n := by
  rw [aLine, List.length_replicate]

/-- A 5000-character function body of four lines (1249, 1249, 1300 and
1199 characters): the greedy packing puts lines 1-2 in part 1 and lines
3-4 in part 2. -/
def fChunkContent : List Char :=
  aLine 1249 ++ '\n' :: (aLine 1249 ++ '\n' :: (aLine 1300 ++ '\n' :: aLine 1199))

/-- The 5000-character function unit `f` spanning lines 10-13. -/
def fChunk : CodeChunk :=
  { name := "f", chunk_type := "function", content := fChunkContent,
    start_line := 10, end_line := 13, language := "python",
    docstring := some "doc", dependencies := [], parameters := [],
    return_type := none, parent := none }

/-- A 5000-character function body of three 1666-character lines: every
single line nearly fills the budget, so the greedy packing emits one
part per line. -/
def gChunkContent : List Char :=
  aLine 1666 ++ '\n' :: (aLine 1666 ++ '\n' :: aLine 1666)

/-- The 5000-character function unit `g` spanning lines 1-3. -/
def gChunk : CodeChunk :=
  { name := "g", chunk_type := "function", content := gChunkContent,
    start_line := 1, end_line := 3, language := "python",
    docstring := none, dependencies := [], parameters := [],
    return_type := none, parent := none }

theorem fChunkContent_length : fChunkContent.length = 5000 := by
  simp only [fChunkContent, List.length_append, List.length_cons, aLine_length]

theorem gChunkContent_length : gChunkContent.length = 5000 := by
  simp only [gChunkContent, List.length_append, List.length_cons, aLine_length]

theorem fChunkContent_lines :
    pySplitlines fChunkContent = [aLine 1249, aLine 1249, aLine 1300, aLine 1199] := by
  rw [pySplitlines, fChunkContent]
  rw [pySplitlinesAux_append_no_nl (aLine 1249) (aLine_no_nl 1249), pySplitlinesAux_nl]
  rw [pySplitlinesAux_append_no_nl (aLine 1249) (aLine_no_nl 1249), pySplitlinesAux_nl]
  rw [pySplitlinesAux_append_no_nl (aLine 1300) (aLine_no_nl 1300), pySplitlinesAux_nl]
  rw [pySplitlinesAux_single (aLine 1199) (aLine_no_nl 1199) (aLine_ne_nil 1199 (by omega))]
  simp

theorem gChunkContent_lines :
    pySplitlines gChunkContent = [aLine 1666, aLine 1666, aLine 1666] := by
  rw [pySplitlines, gChunkContent]
  rw [pySplitlinesAux_append_no_nl (aLine 1666) (aLine_no_nl 1666), pySplitlinesAux_nl]
  rw [pySplitlinesAux_append_no_nl (aLine 1666) (aLine_no_nl 1666), pySplitlinesAux_nl]
  rw [pySplitlinesAux_single (aLine 1666) (aLine_no_nl 1666) (aLine_ne_nil 1666 (by omega))]
  simp

/-- Non-flushing step of the split loop: the line is appended to the
running part when the accumulator is empty or the budget is not
exceeded. -/
theorem split_go_push (c : CodeChunk) (idx part_index : Nat)
    (cur : List (List Char)) (current_len start_offset : Nat)
    (line : List Char) (rest : List (List Char))
    (h : cur.isEmpty = true ∨ current_len + (line.length + 1) ≤ MAX_CHUNK_CHARS) :
    split_go c idx part_index cur current_len start_offset (line :: rest) =
      split_go c (idx + 1) part_index (cur ++ [line])
        (current_len + (line.length + 1)) start_offset rest := by
  have hcond : ¬ (¬ cur.isEmpty ∧ MAX_CHUNK_CHARS < current_len + (line.length + 1)) := by
    rcases h with h | h
    · intro hc
      exact hc.1 (by simp [h])
    · intro hc
      omega
  simp only [split_go, if_neg hcond]

/-- Flushing step of the split loop: the accumulated lines become a part
and the current line opens the next one. -/
theorem split_go_flush (c : CodeChunk) (idx part_index : Nat)
    (cur : List (List Char)) (current_len start_offset : Nat)
    (line : List Char) (rest : List (List Char))
    (h1 : cur.isEmpty = false)
    (h2 : MAX_CHUNK_CHARS < current_len + (line.length + 1)) :
    split_go c idx part_index cur current_len start_offset (line :: rest) =
      mk_part c part_index cur start_offset (idx - 1) ::
        split_go c (idx + 1) (part_index + 1) [line] (line.length + 1) idx rest := by
  have hcond : ¬ cur.isEmpty ∧ MAX_CHUNK_CHARS < current_len + (line.length + 1) :=
    ⟨by simp [h1], h2⟩
  simp only [split_go, if_pos hcond]

/-- Final step of the split loop: the remaining accumulated lines become
the last part. -/
theorem split_go_done (c : CodeChunk) (idx part_index : Nat)
    (cur : List (List Char)) (current_len start_offset : Nat)
    (h : cur.isEmpty = false) :
    split_go c idx part_index cur current_len start_offset [] =
      [mk_part c part_index cur start_offset (idx - 1)] := by
  simp only [split_go, h, Bool.false_eq_true, if_false]

theorem fChunk_split :
    (split_one fChunk).map (fun p => (p.name, p.start_line, p.end_line)) =
      [("f__part1", 10, 11), ("f__part2", 12, 13)] := by
  have hnot : ¬ fChunk.content.length ≤ MAX_CHUNK_CHARS := by
    show ¬ fChunkContent.length ≤ MAX_CHUNK_CHARS
    rw [fChunkContent_length]
    decide
  have hcontent : fChunk.content = fChunkContent := rfl
  have hgo : split_one fChunk =
      split_go fChunk 0 1 [] 0 0 [aLine 1249, aLine 1249, aLine 1300, aLine 1199] := by
    unfold split_one
    rw [if_neg hnot, hcontent, fChunkContent_lines]
    simp only [List.isEmpty_cons, Bool.false_eq_true, if_false]
  rw [hgo]
  rw [split_go_push _ _ _ _ _ _ _ _ (Or.inl (by simp))]
  rw [split_go_push _ _ _ _ _ _ _ _
    (Or.inr (by simp [aLine_length, MAX_CHUNK_CHARS]))]
  rw [split_go_flush _ _ _ _ _ _ _ _ (by simp)
    (by simp [aLine_length, MAX_CHUNK_CHARS])]
  rw [split_go_push _ _ _ _ _ _ _ _
    (Or.inr (by simp [aLine_length, MAX_CHUNK_CHARS]))]
  rw [split_go_done _ _ _ _ _ _ (by simp)]
  simp only [List.map_cons, List.map_nil, mk_part]
  decide

theorem gChunk_split :
    (split_one gChunk).map (fun p => (p.name, p.start_line, p.end_line)) =
      [("g__part1", 1, 1), ("g__part2", 2, 2), ("g__part3", 3, 3)] := by
  have hnot : ¬ gChunk.content.length ≤ MAX_CHUNK_CHARS := by
    show ¬ gChunkContent.length ≤ MAX_CHUNK_CHARS
    rw [gChunkContent_length]
    decide
  have hcontent : gChunk.content = gChunkContent := rfl
  have hgo : split_one gChunk =
      split_go gChunk 0 1 [] 0 0 [aLine 1666, aLine 1666, aLine 1666] := by
    unfold split_one
    rw [if_neg hnot, hcontent, gChunkContent_lines]
    simp only [List.isEmpty_cons, Bool.false_eq_true, if_false]
  rw [hgo]
  rw [split_go_push _ _ _ _ _ _ _ _ (Or.inl (by simp))]
  rw [split_go_flush _ _ _ _ _ _ _ _ (by simp)
    (by simp [aLine_length, MAX_CHUNK_CHARS])]
  rw [split_go_flush _ _ _ _ _ _ _ _ (by simp)
    (by simp [aLine_length, MAX_CHUNK_CHARS])]
  rw [split_go_done _ _ _ _ _ _ (by simp)]
  simp only [List.map_cons, List.map_nil, mk_part]
  decide

/-- C3 counterexample: `gChunk` is a 5000-character function under the
3000-character budget, yet `_split_large_chunks` yields 3 parts
`g__part1`, `g__part2`, `g__part3` — not exactly 2 — because the part
count depends on the line layout (three 1666-character lines each almost
fill the budget). -/
theorem C3_five_thousand_not_two_parts :
    gChunk.content.length = 5000 ∧
    gChunk.chunk_type = "function" ∧
    MAX_CHUNK_CHARS = 3000 ∧
    split_large_chunks [gChunk] = split_one gChunk ∧
    (split_one gChunk).length = 3 ∧
    (split_one gChunk).map CodeChunk.name = ["g__part1", "g__part2", "g__part3"] := by
  have hmap := gChunk_split
  have hlen : (split_one gChunk).length = 3 := by
    have := congrArg List.length hmap
    simpa using this
  have hnames : (split_one gChunk).map CodeChunk.name =
      ["g__part1", "g__part2", "g__part3"] := by
    have h2 := congrArg (List.map Prod.fst) hmap
    rw [List.map_map] at h2
    simpa [Function.comp] using h2
  exact ⟨gChunkContent_length, rfl, rfl, by simp [split_large_chunks], hlen, hnames⟩

/-- C3 (amended): for every code unit whose content exceeds the
3000-character budget and whose declared line range matches its
content's line count (as parser-extracted units do),
`_split_large_chunks` produces a nonempty part list named `__part1`,
`__part2`, ... whose line ranges are contiguous and partition the
original range — the first part starts at the original `start_line`,
consecutive parts abut, the last part ends at the original `end_line` —
and only the first part keeps the docstring.  A 5000-character function
with suitably short lines (here 1249+1249+1300+1199 characters) yields
exactly 2 parts `f__part1`/`f__part2` partitioning its range — but not
every 5000-character function yields 2 parts (see the counterexample). -/
theorem C3_split_is_line_range_partition :
    (∀ c : CodeChunk,
      MAX_CHUNK_CHARS < c.content.length →
      c.end_line + 1 = c.start_line + (pySplitlines c.content).length →
      (split_one c ≠ [] ∧
        (split_one c).head?.map CodeChunk.start_line = some c.start_line ∧
        (split_one c).getLast?.map CodeChunk.end_line = some c.end_line ∧
        List.Chain' (fun p1 p2 => p2.start_line = p1.end_line + 1) (split_one c) ∧
        (split_one c).map CodeChunk.name = part_names c.name 1 (split_one c).length ∧
        (split_one c).map CodeChunk.docstring =
          c.docstring :: List.replicate ((split_one c).length - 1) none)) ∧
    (∀ chunks : List CodeChunk,
      split_large_chunks chunks = chunks.flatMap split_one) ∧
    (fChunk.content.length = 5000 ∧ fChunk.chunk_type = "function" ∧
      (split_one fChunk).map (fun p => (p.name, p.start_line, p.end_line)) =
        [("f__part1", 10, 11), ("f__part2", 12, 13)]) :=
  ⟨fun c hbig hline => split_one_spec c hbig hline,
   fun _ => rfl,
   fChunkContent_length, rfl, fChunk_split⟩

/-- C3 witness: the amended theorem applied to the concrete
5000-character function `f` (content length 5000 > 3000, four lines over
lines 10-13): the parts are nonempty, start at line 10, end at line 13,
and carry the docstring only on the first part. -/
theorem C3_split_is_line_range_partition_witness :
    split_one fChunk ≠ [] ∧
    (split_one fChunk).head?.map CodeChunk.start_line = some 10 ∧
    (split_one fChunk).getLast?.map CodeChunk.end_line = some 13 ∧
    (split_one fChunk).map CodeChunk.docstring =
      some "doc" :: List.replicate ((split_one fChunk).length - 1) none :=
  have h := C3_split_is_line_range_partition.1 fChunk
    (by show MAX_CHUNK_CHARS < fChunkContent.length
        rw [fChunkContent_length]
        decide)
    (by show fChunk.end_line + 1 = fChunk.start_line + (pySplitlines fChunkContent).length
        rw [fChunkContent_lines]
        rfl)
  ⟨h.1, h.2.1, h.2.2.1, h.2.2.2.2.2⟩

/-! ## C6 helper lemmas -/

theorem dot_self_nonneg (a : List ℚ) : 0 ≤ dot a a := by
  induction a with
  | nil => simp [dot]
  | cons x xs ih => simpa [dot] using add_nonneg (mul_self_nonneg x) ih

/-- `2⟨a,b⟩ ≤ ⟨a,a⟩ + ⟨b,b⟩` (expand `⟨a-b, a-b⟩ ≥ 0` coordinatewise). -/
theorem two_dot_le (a b : List ℚ) : 2 * dot a b ≤ dot a a + dot b b := by
  induction a generalizing b with
  | nil =>
    cases b with
    | nil => simp [dot]
    | cons y ys =>
      simpa [dot] using add_nonneg (mul_self_nonneg y) (dot_self_nonneg ys)
  | cons x xs ih =>
    cases b with
    | nil =>
      simpa [dot] using add_nonneg (mul_self_nonneg x) (dot_self_nonneg xs)
    | cons y ys =>
      have h1 := ih ys
      have h2 : 2 * (x * y) ≤ x * x + y * y := by nlinarith [sq_nonneg (x - y)]
      simp only [dot]
      ring_nf
      ring_nf at h1 h2
      linarith

/-- Similarity of unit vectors against a unit query is at most 1. -/
theorem chunk_sim_le_one (q : List ℚ) (c : StoredChunk) (v : List ℚ)
    (hv : c.embedding = some v) (hq : dot q q = 1) (hu : dot v v = 1) :
    chunk_sim q c ≤ 1 := by
  have h := two_dot_le q v
  rw [hq, hu] at h
  rw [chunk_sim, hv]
  linarith

theorem insertDesc_perm (q : List ℚ) (x : StoredChunk) (l : List StoredChunk) :
    (insertDesc q x l).Perm (x :: l) := by
  induction l with
  | nil => simp [insertDesc]
  | cons y ys ih =>
    simp only [insertDesc]
    by_cases hc : chunk_sim q y ≤ chunk_sim q x
    · rw [if_pos hc]
    · rw [if_neg hc]
      exact (ih.cons y).trans (List.Perm.swap x y ys)

theorem sortDesc_perm (q : List ℚ) (l : List StoredChunk) :
    (sortDesc q l).Perm l := by
  induction l with
  | nil => simp [sortDesc]
  | cons x xs ih =>
    exact (insertDesc_perm q x (sortDesc q xs)).trans (ih.cons x)

theorem mem_insertDesc (q : List ℚ) (x z : StoredChunk) (l : List StoredChunk) :
    z ∈ insertDesc q x l ↔ z = x ∨ z ∈ l := by
  rw [(insertDesc_perm q x l).mem_iff]
  simp

theorem insertDesc_pairwise (q : List ℚ) (x : StoredChunk) (l : List StoredChunk)
    (h : l.Pairwise (fun c1 c2 => chunk_sim q c2 ≤ chunk_sim q c1)) :
    (insertDesc q x l).Pairwise (fun c1 c2 => chunk_sim q c2 ≤ chunk_sim q c1) := by
  induction l with
  | nil => simp [insertDesc]
  | cons y ys ih =>
    rw [List.pairwise_cons] at h
    simp only [insertDesc]
    by_cases hc : chunk_sim q y ≤ chunk_sim q x
    · rw [if_pos hc]
      refine List.Pairwise.cons ?_ (List.Pairwise.cons h.1 h.2)
      intro z hz
      rcases List.mem_cons.mp hz with hz | hz
      · rw [hz]
        exact hc
      · exact le_trans (h.1 z hz) hc
    · rw [if_neg hc]
      refine List.Pairwise.cons ?_ (ih h.2)
      intro z hz
      rcases (mem_insertDesc q x z ys).mp hz with hz | hz
      · rw [hz]
        exact le_of_lt (lt_of_not_le hc)
      · exact h.1 z hz

theorem sortDesc_pairwise (q : List ℚ) (l : List StoredChunk) :
    (sortDesc q l).Pairwise (fun c1 c2 => chunk_sim q c2 ≤ chunk_sim q c1) := by
  induction l with
  | nil => simp [sortDesc]
  | cons x xs ih => exact insertDesc_pairwise q x (sortDesc q xs) ih

theorem pyRoundInt_ge_floor (x : ℚ) : Int.floor x ≤ pyRoundInt x := by
  unfold pyRoundInt
  dsimp only
  split_ifs <;> omega

theorem pyRoundInt_le_ceil (x : ℚ) : pyRoundInt x ≤ Int.ceil x := by
  have hfc := Int.floor_le_ceil x
  have hlt : x - Int.floor x > 0 → Int.floor x + 1 ≤ Int.ceil x := by
    intro hpos
    have : (Int.floor x : ℚ) < x := by linarith
    have := Int.lt_ceil.mpr this
    omega
  unfold pyRoundInt
  dsimp only
  split_ifs with h1 h2 h3
  · exact hfc
  · exact hlt (by linarith)
  · exact hfc
  · have h12 : x - Int.floor x = 1/2 := by
      push_neg at h1 h2
      linarith
    exact hlt (by rw [h12]; norm_num)

theorem round4_le_one (x : ℚ) (h : x ≤ 1) : round4 x ≤ 1 := by
  rw [round4]
  have h1 : x * 10000 ≤ ((10000 : ℤ) : ℚ) := by push_cast; linarith
  have h2 : pyRoundInt (x * 10000) ≤ 10000 :=
    le_trans (pyRoundInt_le_ceil _) (Int.ceil_le.mpr h1)
  rw [div_le_one (by norm_num)]
  exact_mod_cast h2

theorem round4_one : round4 1 = 1 := by
  rw [round4]
  have h0 : (1 : ℚ) * 10000 = ((10000 : ℤ) : ℚ) := by norm_num
  rw [h0]
  unfold pyRoundInt
  dsimp only
  rw [Int.floor_intCast]
  norm_num

theorem search_select_threshold (chunks : List StoredChunk) (q : List ℚ)
    (limit : Nat) (threshold : ℚ) :
    ∀ c ∈ search_select chunks q limit threshold, threshold ≤ chunk_sim q c := by
  intro c hc
  have := List.of_mem_filter hc
  simpa using this

theorem search_select_subset (chunks : List StoredChunk) (q : List ℚ)
    (limit : Nat) (threshold : ℚ) :
    ∀ c ∈ search_select chunks q limit threshold, c ∈ chunks ∧ c.embedding.isSome := by
  intro c hc
  have h1 := List.mem_of_mem_filter hc
  have h2 := (List.take_sublist limit _).subset h1
  have h3 := (sortDesc_perm q _).mem_iff.mp h2
  exact ⟨List.mem_of_mem_filter h3, by simpa using List.of_mem_filter h3⟩

theorem search_select_sorted (chunks : List StoredChunk) (q : List ℚ)
    (limit : Nat) (threshold : ℚ) :
    (search_select chunks q limit threshold).Pairwise
      (fun c1 c2 => chunk_sim q c2 ≤ chunk_sim q c1) := by
  have hsub : (search_select chunks q limit threshold).Sublist
      (sortDesc q (chunks.filter (fun c => c.embedding.isSome))) :=
    (List.filter_sublist _).trans (List.take_sublist _ _)
  exact (sortDesc_pairwise q _).sublist hsub

/-- With an exact duplicate of the unit query in a unit-norm corpus, the
selection keeps a row of similarity exactly 1 (the sort's head). -/
theorem search_select_top (chunks : List StoredChunk) (q : List ℚ)
    (limit : Nat) (threshold : ℚ) (dup : StoredChunk)
    (hdup : dup ∈ chunks) (hde : dup.embedding = some q)
    (hq : dot q q = 1)
    (hunit : ∀ c ∈ chunks, ∀ v, c.embedding = some v → dot v v = 1)
    (hth : threshold ≤ 1) (hlim : 0 < limit) :
    ∃ r ∈ search_select chunks q limit threshold, chunk_sim q r = 1 := by
  have hdf : dup ∈ chunks.filter (fun c => c.embedding.isSome) :=
    List.mem_filter.mpr ⟨hdup, by simp [hde]⟩
  have hsd : dup ∈ sortDesc q (chunks.filter (fun c => c.embedding.isSome)) :=
    (sortDesc_perm q _).mem_iff.mpr hdf
  have hsim_dup : chunk_sim q dup = 1 := by
    rw [chunk_sim, hde]
    exact hq
  cases hsort : sortDesc q (chunks.filter (fun c => c.embedding.isSome)) with
  | nil => rw [hsort] at hsd; simp at hsd
  | cons h t =>
    have hpw := sortDesc_pairwise q (chunks.filter (fun c => c.embedding.isSome))
    rw [hsort, List.pairwise_cons] at hpw
    have hh1 : 1 ≤ chunk_sim q h := by
      rw [hsort] at hsd
      rcases List.mem_cons.mp hsd with hd | hd
      · rw [← hd, hsim_dup]
      · rw [← hsim_dup]
        exact hpw.1 dup hd
    have hhmem : h ∈ chunks.filter (fun c => c.embedding.isSome) := by
      rw [← (sortDesc_perm q _).mem_iff, hsort]
      exact List.mem_cons_self h t
    have hh2 : chunk_sim q h ≤ 1 := by
      obtain ⟨v, hv⟩ := Option.isSome_iff_exists.mp
        (by simpa using List.of_mem_filter hhmem)
      exact chunk_sim_le_one q h v hv hq
        (hunit h (List.mem_of_mem_filter hhmem) v hv)
    have hsim : chunk_sim q h = 1 := le_antisymm hh2 hh1
    refine ⟨h, ?_, hsim⟩
    obtain ⟨m, hm⟩ := Nat.exists_eq_succ_of_ne_zero (Nat.pos_iff_ne_zero.mp hlim)
    refine List.mem_filter.mpr ⟨?_, by simp [hsim, hth]⟩
    rw [hsort, hm, List.take_succ_cons]
    exact List.mem_cons_self h _

/-! ## C6 concrete corpus -/

/-- The (unit) query embedding. -/
def qVec : List ℚ := [4/5, 3/5]

/-- A stored chunk whose unit vector has inner product exactly 0.8 with
`qVec`. -/
def cB : StoredChunk :=
  { id := 1, name := "b", chunk_type := "function", language := "python",
    file_path := "b.py", content := "def b(): pass", docstring := none,
    start_line := 1, end_line := 2, embedding := some [1, 0] }

/-- A stored chunk whose vector exactly duplicates the query embedding. -/
def cDup : StoredChunk :=
  { id := 2, name := "dup", chunk_type := "function", language := "python",
    file_path := "dup.py", content := "def dup(): pass", docstring := none,
    start_line := 3, end_line := 4, embedding := some qVec }

/-- C6 counterexample: a chunk whose similarity to the query is exactly
0.8 is tagged "medium", not "high", because the code tags "high" only on
similarity strictly greater than 0.8 (`similarity > 0.8`). -/
theorem round4_four_fifths : round4 (4/5) = 4/5 := by
  rw [round4]
  have h0 : (4/5 : ℚ) * 10000 = ((8000 : ℤ) : ℚ) := by norm_num
  rw [h0]
  unfold pyRoundInt
  dsimp only
  rw [Int.floor_intCast]
  norm_num

theorem C6_confidence_boundary_counterexample :
    chunk_sim qVec cB = 8/10 ∧
    (search_similar_code [cB] qVec 5 (1/2)).map SearchResult.confidence =
      ["medium"] ∧
    "medium" ≠ "high" := by
  have hsim : chunk_sim qVec cB = 4/5 := by
    rw [chunk_sim, show cB.embedding = some [1, 0] from rfl]
    norm_num [qVec, dot]
  have hsel : search_select [cB] qVec 5 (1/2) = [cB] := by
    rw [search_select]
    rw [show List.filter (fun c => c.embedding.isSome) [cB] = [cB] by rfl]
    rw [show sortDesc qVec [cB] = [cB] from rfl]
    rw [show List.take 5 [cB] = [cB] from rfl]
    rw [List.filter_cons]
    rw [if_pos (by rw [hsim]; norm_num), List.filter_nil]
  refine ⟨by rw [hsim]; norm_num, ?_, by decide⟩
  rw [search_similar_code, hsel, List.map_cons, List.map_nil, List.map_cons,
    List.map_nil, to_result]
  dsimp only
  rw [hsim]
  rw [if_neg (by norm_num)]

/-- C6 (amended): `search_similar_code` returns exactly the rows whose
similarity is at or above the threshold, in descending inner-product
similarity order; each returned row is tagged "high" when its similarity
strictly exceeds 0.8 and "medium" otherwise (a similarity of exactly 0.8
is "medium"); and when the corpus of unit vectors contains a chunk whose
stored vector exactly duplicates the unit query embedding, every
returned score is at most 1 while a returned row scores exactly 1 — the
duplicate's score is the maximum among the returned results. -/
theorem C6_search_ranked_and_max (chunks : List StoredChunk) (q : List ℚ)
    (limit : Nat) (threshold : ℚ) (dup : StoredChunk)
    (hdup : dup ∈ chunks) (hde : dup.embedding = some q)
    (hq : dot q q = 1)
    (hunit : ∀ c ∈ chunks, ∀ v, c.embedding = some v → dot v v = 1)
    (hth : threshold ≤ 1) (hlim : 0 < limit) :
    search_similar_code chunks q limit threshold =
      (search_select chunks q limit threshold).map (to_result q) ∧
    (∀ c ∈ search_select chunks q limit threshold, threshold ≤ chunk_sim q c) ∧
    (search_select chunks q limit threshold).Pairwise
      (fun c1 c2 => chunk_sim q c2 ≤ chunk_sim q c1) ∧
    (∀ c ∈ search_select chunks q limit threshold,
      (to_result q c).confidence =
        if 8/10 < chunk_sim q c then "high" else "medium") ∧
    (∀ r ∈ search_similar_code chunks q limit threshold,
      r.similarity_score ≤ 1) ∧
    (∃ r ∈ search_similar_code chunks q limit threshold,
      r.similarity_score = 1) := by
  refine ⟨rfl, search_select_threshold chunks q limit threshold,
    search_select_sorted chunks q limit threshold,
    fun c _ => rfl, ?_, ?_⟩
  · intro r hr
    rw [search_similar_code, List.mem_map] at hr
    obtain ⟨c, hc, hcr⟩ := hr
    obtain ⟨hmem, hemb⟩ := search_select_subset chunks q limit threshold c hc
    obtain ⟨v, hv⟩ := Option.isSome_iff_exists.mp hemb
    have hle := chunk_sim_le_one q c v hv hq (hunit c hmem v hv)
    rw [← hcr]
    exact round4_le_one _ hle
  · obtain ⟨c, hc, hsim⟩ :=
      search_select_top chunks q limit threshold dup hdup hde hq hunit hth hlim
    refine ⟨to_result q c, List.mem_map_of_mem (to_result q) hc, ?_⟩
    rw [to_result]
    dsimp only
    rw [hsim]
    exact round4_one

/-- C6 witness: corpus `[cB, cDup]` of unit vectors with `cDup`
duplicating the unit query `qVec`, limit 5, threshold 1/2: both rows
pass the threshold, scores are at most 1, and a returned row (the
duplicate) scores exactly 1. -/
theorem C6_search_ranked_and_max_witness :
    (∀ r ∈ search_similar_code [cB, cDup] qVec 5 (1/2),
      r.similarity_score ≤ 1) ∧
    (∃ r ∈ search_similar_code [cB, cDup] qVec 5 (1/2),
      r.similarity_score = 1) :=
  have h := C6_search_ranked_and_max [cB, cDup] qVec 5 (1/2) cDup
    (List.mem_cons_of_mem cB (List.mem_cons_self cDup []))
    rfl
    (by norm_num [dot, qVec])
    (by intro c hc v hv
        rcases List.mem_cons.mp hc with h1 | h1
        · subst h1
          rw [show cB.embedding = some [1, 0] from rfl] at hv
          injection hv with hv
          rw [← hv]
          norm_num [dot]
        · rcases List.mem_cons.mp h1 with h2 | h2
          · subst h2
            rw [show cDup.embedding = some qVec from rfl] at hv
            injection hv with hv
            rw [← hv]
            norm_num [dot, qVec]
          · simp at h2)
    (by norm_num) (by norm_num)
  ⟨h.2.2.2.2.1, h.2.2.2.2.2⟩
